import Mathlib

/-!
Verification of the order-key management and undo subsystem of a todo-list
application. The definitions below are shallow embeddings of the JavaScript
sources `src/TodoOperations.js`, `src/UndoManager.js` and the reordering /
undo-wiring logic of `src/TodoApp.js`. JS objects become Lean structures,
`undefined`/`null` fields become `Option`, in-place array mutation becomes
explicit state passing over `List`, and `Array.prototype.sort` (a stable
sort) is modelled with `List.insertionSort` (also stable; for the total
preorders used as comparators here every stable sort yields the same list).
-/

/-- A task record ("todo"). `order` is `none` when the JS field is
`undefined`; `listId` is `none` when the JS field is `null`; `createdAt`
is the numeric timestamp of the ISO creation date. -/
structure Todo where
  id : String
  text : String
  completed : Bool
  listId : Option String
  createdAt : Int
  order : Option Int
  deriving DecidableEq, Repr

/-- A list record (`{id, name, createdAt}` in the source). -/
structure ListEntry where
  id : String
  name : String
  createdAt : Int
  deriving DecidableEq, Repr

/-- An undo action record. JS actions are loosely-typed objects keyed by a
`type` string; each variant populates only some fields, so every field other
than `type` is optional with default `none` (JS `undefined`). -/
structure UndoAction where
  type : String
  todoId : Option String := none
  todo : Option Todo := none
  previousState : Option Bool := none
  previousText : Option String := none
  newText : Option String := none
  listId : Option String := none
  list : Option ListEntry := none
  todos : Option (List Todo) := none
  previousName : Option String := none
  newName : Option String := none
  todoIds : Option (List String) := none
  targetListId : Option (Option String) := none
  originalListIds : Option (List (String × Option String)) := none
  originalListId : Option String := none
  originalOrders : Option (List (String × Int)) := none
  originalOrder : Option Int := none
  newOrder : Option Int := none
  deletedTodos : Option (List Todo) := none
  addedTodoIds : Option (List String) := none
  deriving DecidableEq, Repr

/-- JS truthiness of an optional string field: `undefined`, `null` and the
empty string are falsy. -/
def strTruthy : Option String → Bool
  | none => false
  | some s => s ≠ ""

/-- Result of a mutating `TodoOperations` call: the returned value, the
updated todos collection, the actions pushed via `addToUndoStack`, and
whether `saveData` was invoked. -/
structure OpResult where
  ok : Bool
  todos : List Todo
  pushed : List UndoAction
  saved : Bool
  deriving DecidableEq, Repr

/-- Embeds the `listId === 'default' ? null : listId` normalization applied
at the head of the `TodoOperations` partition functions. -/
def normalizeListId (listId : Option String) : Option String :=
  match listId with
  | some s => if s = "default" then none else some s
  | none => none

/-- Embeds `TodoOperations.getNextOrderValue` (TodoOperations.js:397-407):
filter the partition, return 1000 when it is empty, otherwise
`Math.max(...orders treating missing as 0) + 1000`. -/
def getNextOrderValue (todos : List Todo) (listId : Option String) : Int :=
  let normalizedListId := normalizeListId listId
  let listTodos := todos.filter (fun todo => todo.listId == normalizedListId)
  if listTodos.isEmpty then 1000
  else ((listTodos.map (fun todo => todo.order.getD 0)).max?.getD 0) + 1000

/-- Embeds `TodoApp.getTodosForList` (TodoApp.js:116-121): the string
sentinel `'default'` returns the whole todos collection; any other id
filters on `listId`. -/
def getTodosForList (todos : List Todo) (listId : String) : List Todo :=
  if listId = "default" then todos
  else todos.filter (fun todo => todo.listId == some listId)

/-- Effective display key of a task as computed in `TodoApp.getFilteredTodos`
(TodoApp.js:136-137): the `order` value when defined, otherwise the
`createdAt` timestamp. -/
def effectiveOrder (t : Todo) : Int :=
  match t.order with
  | some v => v
  | none => t.createdAt

/-- Boolean form of the `getFilteredTodos` sort comparator
(TodoApp.js:131-138): completed tasks sort after incomplete ones, ties on
`completed` are ordered by the effective display key. `displayLeB a b` holds
when the comparator returns a value that is at most zero. -/
def displayLeB (a b : Todo) : Bool :=
  if a.completed == b.completed then decide (effectiveOrder a ≤ effectiveOrder b)
  else !a.completed

/-- Propositional form of the display comparator. -/
def displayLe (a b : Todo) : Prop := displayLeB a b = true

instance : DecidableRel displayLe := fun a b => instDecidableEqBool (displayLeB a b) true

instance : IsTotal Todo displayLe := by
  constructor
  intro a b
  simp only [displayLe, displayLeB]
  by_cases h : a.completed = b.completed
  · simp [h]
    omega
  · rcases Bool.eq_false_or_eq_true a.completed with ha | ha <;>
      rcases Bool.eq_false_or_eq_true b.completed with hb | hb <;>
      simp_all

instance : IsTrans Todo displayLe := by
  constructor
  intro a b c hab hbc
  simp only [displayLe, displayLeB] at *
  rcases Bool.eq_false_or_eq_true a.completed with ha | ha <;>
    rcases Bool.eq_false_or_eq_true b.completed with hb | hb <;>
    rcases Bool.eq_false_or_eq_true c.completed with hc | hc <;>
    simp_all <;> omega

/-- Embeds `TodoApp.getFilteredTodos` (TodoApp.js:127-142): the current
list's tasks sorted by the display comparator (JS `Array.sort` is stable,
modelled by the stable `insertionSort`). -/
def getFilteredTodos (todos : List Todo) (currentListId : String) : List Todo :=
  (getTodosForList todos currentListId).insertionSort displayLe

/-- In-memory application state owned by `TodoApp`: the todos and lists
collections and the currently selected list id. -/
structure AppState where
  todos : List Todo
  lists : List ListEntry
  currentListId : String
  deriving DecidableEq, Repr

/-- The undo log (`UndoManager` constructor, UndoManager.js:5-9): an ordered
stack (index 0 oldest, last element most recent) and a maximum size. -/
structure UndoManager where
  undoStack : List UndoAction
  maxSize : Nat
  deriving DecidableEq, Repr

/-- Embeds `UndoManager.addAction` (UndoManager.js:15-30): reject actions
without a truthy `type`, append, and `shift` off the oldest entry when the
stack exceeds `maxSize`. -/
def UndoManager.addAction (m : UndoManager) (action : UndoAction) : UndoManager :=
  if action.type = "" then m
  else
    let pushedStack := m.undoStack ++ [action]
    if pushedStack.length > m.maxSize then { m with undoStack := pushedStack.tail }
    else { m with undoStack := pushedStack }

/-- Embeds `UndoManager.canUndo` (UndoManager.js:184-186). -/
def UndoManager.canUndo (m : UndoManager) : Bool :=
  decide (m.undoStack.length > 0)

/-- Embeds `UndoManager.getHistoryCount` (UndoManager.js:200-202). -/
def UndoManager.getHistoryCount (m : UndoManager) : Nat :=
  m.undoStack.length

/-- Embeds `UndoManager.getLastActionType` (UndoManager.js:208-213). -/
def UndoManager.getLastActionType (m : UndoManager) : Option String :=
  m.undoStack.getLast?.map UndoAction.type

/-- Embeds `UndoManager.clear` (UndoManager.js:191-194). -/
def UndoManager.clear (m : UndoManager) : UndoManager :=
  { m with undoStack := [] }

/-- The todo-side mutator callbacks passed to `UndoManager.undo`
(TodoApp.js:968-1019). A callback returns `Except Unit AppState`, where
`Except.error` models a thrown exception: the concrete TodoApp callbacks
below never throw, but `undo` catches exceptions from arbitrary callbacks. -/
structure TodoOpsCallbacks where
  deleteTodoById : String → AppState → Except Unit AppState
  restoreTodo : Todo → AppState → Except Unit AppState
  toggleTodoById : String → AppState → Except Unit AppState
  updateTodoById : String → String → AppState → Except Unit AppState
  moveTodosToListById : List String → String → AppState → Except Unit AppState
  restoreTodoOrders : List String → List (String × Int) → AppState → Except Unit AppState
  updateTodoOrderById : String → Int → AppState → Except Unit AppState
  restoreMultipleTodos : List Todo → AppState → Except Unit AppState

/-- The list-side mutator callbacks (TodoApp.js:1021-1040). -/
structure ListOpsCallbacks where
  deleteListById : String → AppState → Except Unit AppState
  restoreList : ListEntry → List Todo → AppState → Except Unit AppState
  updateListById : String → String → AppState → Except Unit AppState

/-- The `operations` object handed to `UndoManager.undo` (TodoApp.js:967). -/
structure Operations where
  todoOps : TodoOpsCallbacks
  listOps : ListOpsCallbacks

/-- Embeds `_undoAddTodo` (UndoManager.js:111-115): guarded by the
truthiness of `action.todoId`; silently does nothing when the guard fails. -/
def undoAddTodo (action : UndoAction) (todoOps : TodoOpsCallbacks) (st : AppState) : Except Unit AppState :=
  if strTruthy action.todoId then todoOps.deleteTodoById (action.todoId.getD "") st
  else Except.ok st

/-- Embeds `_undoDeleteTodo` (UndoManager.js:120-124). -/
def undoDeleteTodo (action : UndoAction) (todoOps : TodoOpsCallbacks) (st : AppState) : Except Unit AppState :=
  match action.todo with
  | some todo => todoOps.restoreTodo todo st
  | none => Except.ok st

/-- Embeds `_undoToggleTodo` (UndoManager.js:129-133). -/
def undoToggleTodo (action : UndoAction) (todoOps : TodoOpsCallbacks) (st : AppState) : Except Unit AppState :=
  if strTruthy action.todoId then todoOps.toggleTodoById (action.todoId.getD "") st
  else Except.ok st

/-- Embeds `_undoEditTodo` (UndoManager.js:138-142): requires both
`action.todoId` and `action.previousText` to be truthy. -/
def undoEditTodo (action : UndoAction) (todoOps : TodoOpsCallbacks) (st : AppState) : Except Unit AppState :=
  if strTruthy action.todoId && strTruthy action.previousText then
    todoOps.updateTodoById (action.todoId.getD "") (action.previousText.getD "") st
  else Except.ok st

/-- Embeds `_undoAddList` (UndoManager.js:147-151). -/
def undoAddList (action : UndoAction) (listOps : ListOpsCallbacks) (st : AppState) : Except Unit AppState :=
  if strTruthy action.listId then listOps.deleteListById (action.listId.getD "") st
  else Except.ok st

/-- Embeds `_undoDeleteList` (UndoManager.js:156-160). -/
def undoDeleteList (action : UndoAction) (listOps : ListOpsCallbacks) (st : AppState) : Except Unit AppState :=
  match action.list, action.todos with
  | some list, some todos => listOps.restoreList list todos st
  | _, _ => Except.ok st

/-- Embeds `_undoEditList` (UndoManager.js:165-169). -/
def undoEditList (action : UndoAction) (listOps : ListOpsCallbacks) (st : AppState) : Except Unit AppState :=
  if strTruthy action.listId && strTruthy action.previousName then
    listOps.updateListById (action.listId.getD "") (action.previousName.getD "") st
  else Except.ok st

/-- Embeds `_undoMoveTodos` (UndoManager.js:174-178): the guard reads the
singular field `action.originalListId`, not the `originalListIds` map that
`moveTodosToList` records. -/
def undoMoveTodos (action : UndoAction) (todoOps : TodoOpsCallbacks) (st : AppState) : Except Unit AppState :=
  match action.todoIds with
  | some todoIds =>
    if strTruthy action.originalListId then
      todoOps.moveTodosToListById todoIds (action.originalListId.getD "") st
    else Except.ok st
  | none => Except.ok st

/-- Embeds `_undoReorderTodos` (UndoManager.js:218-222). -/
def undoReorderTodos (action : UndoAction) (todoOps : TodoOpsCallbacks) (st : AppState) : Except Unit AppState :=
  match action.todoIds, action.originalOrders with
  | some todoIds, some originalOrders => todoOps.restoreTodoOrders todoIds originalOrders st
  | _, _ => Except.ok st

/-- Embeds `_undoUpdateTodoOrder` (UndoManager.js:227-231): the order guard
is an explicit `!== undefined` check, so any recorded number passes. -/
def undoUpdateTodoOrder (action : UndoAction) (todoOps : TodoOpsCallbacks) (st : AppState) : Except Unit AppState :=
  match action.originalOrder with
  | some originalOrder =>
    if strTruthy action.todoId then
      todoOps.updateTodoOrderById (action.todoId.getD "") originalOrder st
    else Except.ok st
  | none => Except.ok st

/-- Embeds `_undoBatchDeleteTodos` (UndoManager.js:236-240). -/
def undoBatchDeleteTodos (action : UndoAction) (todoOps : TodoOpsCallbacks) (st : AppState) : Except Unit AppState :=
  match action.deletedTodos with
  | some deletedTodos => todoOps.restoreMultipleTodos deletedTodos st
  | none => Except.ok st

/-- Embeds the `switch (action.type)` dispatch inside `undo`
(UndoManager.js:47-97). `none` is the `default` branch: an unrecognized
action type. -/
def undoDispatch (action : UndoAction) (operations : Operations) (st : AppState) : Option (Except Unit AppState) :=
  match action.type with
  | "addTodo" => some (undoAddTodo action operations.todoOps st)
  | "deleteTodo" => some (undoDeleteTodo action operations.todoOps st)
  | "toggleTodo" => some (undoToggleTodo action operations.todoOps st)
  | "editTodo" => some (undoEditTodo action operations.todoOps st)
  | "addList" => some (undoAddList action operations.listOps st)
  | "deleteList" => some (undoDeleteList action operations.listOps st)
  | "editList" => some (undoEditList action operations.listOps st)
  | "moveTodos" => some (undoMoveTodos action operations.todoOps st)
  | "reorderTodos" => some (undoReorderTodos action operations.todoOps st)
  | "updateTodoOrder" => some (undoUpdateTodoOrder action operations.todoOps st)
  | "batchDeleteTodos" => some (undoBatchDeleteTodos action operations.todoOps st)
  | _ => none

/-- Embeds `UndoManager.undo` (UndoManager.js:37-106): empty stack returns
false with no pop; otherwise the most recent action is popped and
dispatched; an unrecognized type or a thrown exception pushes the action
back and returns false; otherwise true. On a caught exception the
partially-mutated app state is not rolled back by the source either; the
model keeps the pre-call state because callbacks are all-or-nothing here. -/
def UndoManager.undo (m : UndoManager) (operations : Operations) (st : AppState) :
    Bool × UndoManager × AppState :=
  match m.undoStack.getLast? with
  | none => (false, m, st)
  | some action =>
    let popped : UndoManager := { m with undoStack := m.undoStack.dropLast }
    match undoDispatch action operations st with
    | some (Except.ok st2) => (true, popped, st2)
    | some (Except.error _) => (false, { popped with undoStack := popped.undoStack ++ [action] }, st)
    | none => (false, { popped with undoStack := popped.undoStack ++ [action] }, st)

/-- Models the JS idiom `array.find(cond)` followed by in-place mutation of
the found object: applies `f` to the first element satisfying `p`. -/
def updateFirst {α : Type} (p : α → Bool) (f : α → α) : List α → List α
  | [] => []
  | x :: rest => if p x then f x :: rest else x :: updateFirst p f rest

/-- The concrete todo-side callbacks built by `TodoApp.undo`
(TodoApp.js:968-1019); all are total, so they always return `Except.ok`. -/
def todoAppTodoOps : TodoOpsCallbacks where
  deleteTodoById := fun todoId st =>
    Except.ok { st with todos := st.todos.filter (fun t => !(t.id == todoId)) }
  restoreTodo := fun todo st =>
    Except.ok { st with todos := st.todos ++ [todo] }
  toggleTodoById := fun todoId st =>
    let todos2 := updateFirst (fun t => t.id == todoId) (fun t => { t with completed := !t.completed }) st.todos
    Except.ok { st with todos := todos2 }
  updateTodoById := fun todoId newText st =>
    let todos2 := updateFirst (fun t => t.id == todoId) (fun t => { t with text := newText }) st.todos
    Except.ok { st with todos := todos2 }
  moveTodosToListById := fun todoIds targetListId st =>
    let actual := if targetListId = "default" then none else some targetListId
    let todos2 := todoIds.foldl (fun acc todoId => updateFirst (fun t => t.id == todoId) (fun t => { t with listId := actual }) acc) st.todos
    Except.ok { st with todos := todos2 }
  restoreTodoOrders := fun todoIds originalOrders st =>
    let todos2 := todoIds.foldl (fun acc todoId =>
      match originalOrders.lookup todoId with
      | some v => updateFirst (fun t => t.id == todoId) (fun t => { t with order := some v }) acc
      | none => acc) st.todos
    Except.ok { st with todos := todos2 }
  updateTodoOrderById := fun todoId newOrder st =>
    let todos2 := updateFirst (fun t => t.id == todoId) (fun t => { t with order := some newOrder }) st.todos
    Except.ok { st with todos := todos2 }
  restoreMultipleTodos := fun deletedTodos st =>
    Except.ok { st with todos := st.todos ++ deletedTodos }

/-- The concrete list-side callbacks built by `TodoApp.undo`
(TodoApp.js:1021-1040). -/
def todoAppListOps : ListOpsCallbacks where
  deleteListById := fun listId st =>
    let cur2 := if st.currentListId = listId then "default" else st.currentListId
    Except.ok { st with lists := st.lists.filter (fun l => !(l.id == listId)), currentListId := cur2 }
  restoreList := fun list todos st =>
    Except.ok { st with lists := st.lists ++ [list], todos := st.todos ++ todos }
  updateListById := fun listId newName st =>
    let lists2 := updateFirst (fun l => l.id == listId) (fun l => { l with name := newName }) st.lists
    Except.ok { st with lists := lists2 }

/-- The full `operations` object of `TodoApp.undo`. -/
def todoAppOperations : Operations where
  todoOps := todoAppTodoOps
  listOps := todoAppListOps

/-- Boolean form of the `normalizeTodoOrders` sort comparator
(TodoOperations.js:536): `(a.order || 0) - (b.order || 0)` is at most 0. -/
def ordLeB (a b : Todo) : Bool :=
  decide (a.order.getD 0 ≤ b.order.getD 0)

/-- Propositional form of the order comparator. -/
def ordLe (a b : Todo) : Prop := ordLeB a b = true

instance : DecidableRel ordLe := fun a b => instDecidableEqBool (ordLeB a b) true

instance : IsTotal Todo ordLe := by
  constructor
  intro a b
  simp only [ordLe, ordLeB, decide_eq_true_eq]
  omega

instance : IsTrans Todo ordLe := by
  constructor
  intro a b c hab hbc
  simp only [ordLe, ordLeB, decide_eq_true_eq] at *
  omega

/-- Embeds the missing-order fill of `normalizeTodoOrders`
(TodoOperations.js:529-533): a task without an `order` gets its `createdAt`
timestamp as order. -/
def fillOrder (t : Todo) : Todo :=
  match t.order with
  | some _ => t
  | none => { t with order := some t.createdAt }

/-- Stable sort by the current order values (TodoOperations.js:536). -/
def sortByOrder (l : List Todo) : List Todo :=
  l.insertionSort ordLe

/-- Embeds the reassignment loop of `normalizeTodoOrders`
(TodoOperations.js:538-545): position `index` receives order
`(index + 1) * 1000`. -/
def assignOrders (l : List Todo) : List Todo :=
  l.enum.map (fun p => { p.2 with order := some (((p.1 : Int) + 1) * 1000) })

/-- Embeds `TodoOperations.normalizeTodoOrders` (TodoOperations.js:520-553).
Returns the `normalized` flag (true iff some reassignment changed a value;
`saveData` fires exactly when it is true) and the updated todos collection.
The JS mutates the shared task objects in place; here the collection is
rebuilt, with each partition member replaced by its reassigned version,
looked up by id. -/
def normalizeTodoOrders (todos : List Todo) (listId : Option String) : Bool × List Todo :=
  let normalizedListId := normalizeListId listId
  let listTodos := todos.filter (fun todo => todo.listId == normalizedListId)
  if listTodos.isEmpty then (false, todos)
  else
    let sorted := sortByOrder (listTodos.map fillOrder)
    let assigned := assignOrders sorted
    let normalized := sorted.enum.any (fun p => p.2.order != some (((p.1 : Int) + 1) * 1000))
    (normalized, todos.map (fun t =>
      if t.listId == normalizedListId then (assigned.find? (fun u => u.id == t.id)).getD t else t))

/-- Embeds the partition-membership test used twice inside `reorderTodos`
(TodoOperations.js:430-432 and 445-447): either both ids are null, or the
todo's non-null listId equals the normalized target. -/
def isMatchingList (todoListId normalizedListId : Option String) : Bool :=
  (todoListId == none && normalizedListId == none) ||
    (todoListId != none && todoListId == normalizedListId)

/-- Models one iteration of the order-writing loop of `reorderTodos`
(TodoOperations.js:441-457): find the first todo with the given id and, when
it belongs to the partition and its order differs, write the new order;
the returned flag reports whether a write happened. -/
def applyNewOrder (normalizedListId : Option String) (todoId : String) (newOrder : Int) :
    List Todo → List Todo × Bool
  | [] => ([], false)
  | t :: rest =>
    if t.id == todoId then
      if isMatchingList t.listId normalizedListId then
        if t.order != some newOrder then ({ t with order := some newOrder } :: rest, true)
        else (t :: rest, false)
      else (t :: rest, false)
    else
      let r := applyNewOrder normalizedListId todoId newOrder rest
      (t :: r.1, r.2)

/-- Embeds `TodoOperations.reorderTodos` (TodoOperations.js:416-473): record
the original orders of the partition members listed in `todoIds`, then write
`(index + 1) * 1000` to each; push an undo action and save only when some
order actually changed. -/
def reorderTodos (todoIds : List String) (listId : Option String) (todos : List Todo) : OpResult :=
  if todoIds.isEmpty then ⟨false, todos, [], false⟩
  else
    let normalizedListId := normalizeListId listId
    let originalOrders := todoIds.filterMap (fun todoId =>
      match todos.find? (fun t => t.id == todoId) with
      | some todo =>
        if isMatchingList todo.listId normalizedListId then some (todoId, todo.order.getD 0)
        else none
      | none => none)
    let step := todoIds.enum.foldl (fun acc p =>
      let r := applyNewOrder normalizedListId p.2 (((p.1 : Int) + 1) * 1000) acc.1
      (r.1, acc.2 || r.2)) (todos, false)
    if step.2 then
      ⟨true, step.1,
        [{ type := "reorderTodos", listId := normalizedListId, todoIds := some todoIds,
           originalOrders := some originalOrders }], true⟩
    else ⟨false, step.1, [], false⟩

/-- Models one iteration of the move loop of `moveTodosToList`
(TodoOperations.js:213-220): find the first todo with the given id; when its
listId differs from the target, record the original listId and move it. -/
def moveStep (actualTargetListId : Option String) (todoId : String) :
    List Todo → List Todo × Option (Option String)
  | [] => ([], none)
  | t :: rest =>
    if t.id == todoId then
      if t.listId != actualTargetListId then
        ({ t with listId := actualTargetListId } :: rest, some t.listId)
      else (t :: rest, none)
    else
      let r := moveStep actualTargetListId todoId rest
      (t :: r.1, r.2)

/-- Embeds `TodoOperations.moveTodosToList` (TodoOperations.js:204-236):
moves the listed todos to the normalized target list, collecting each moved
task's original listId into the `originalListIds` map of the pushed
`moveTodos` action. Note the pushed action has no `originalListId`
(singular) field. -/
def moveTodosToList (todoIds : List String) (targetListId : Option String) (todos : List Todo) : OpResult :=
  if todoIds.isEmpty then ⟨false, todos, [], false⟩
  else
    let actualTargetListId := normalizeListId targetListId
    let fold := todoIds.foldl
      (fun (acc : List Todo × List (String × Option String) × Bool) todoId =>
        let r := moveStep actualTargetListId todoId acc.1
        match r.2 with
        | some orig => (r.1, acc.2.1 ++ [(todoId, orig)], true)
        | none => (r.1, acc.2.1, acc.2.2)) (todos, [], false)
    if fold.2.2 then
      ⟨true, fold.1,
        [{ type := "moveTodos", todoIds := some todoIds, targetListId := some actualTargetListId,
           originalListIds := some fold.2.1 }], true⟩
    else ⟨false, fold.1, [], false⟩

/-- JavaScript `findIndex`: the index of the first match, or -1. -/
def jsFindIdx {α : Type} (l : List α) (p : α → Bool) : Int :=
  match l.findIdx? p with
  | some i => (i : Int)
  | none => -1

/-- Embeds the new-ID-sequence computation of `TodoApp.reorderTodosInList`
(TodoApp.js:1186-1284). `none` models the early returns (empty drag, drop on
self, target not found). The forward push-loops over `remainingTodos`
(lines 1246-1262 and 1266-1282) are written as `take`/`drop` around the
target's index in `remainingTodos`; when the target was itself dragged
(`findIndex` = -1) both loop shapes degenerate to the dragged items followed
by all remaining items, which is the separate `none` branch below. -/
def reorderNewOrderIds (currentListTodos : List Todo) (draggedTodoIds : List String)
    (targetTodoId : Option String) : Option (List String) :=
  if draggedTodoIds.isEmpty then none
  else if draggedTodoIds.length == 1 &&
      (match targetTodoId with
       | some t => draggedTodoIds.headD "" == t
       | none => false) then none
  else
    let remainingTodos := currentListTodos.filter (fun todo => !(draggedTodoIds.contains todo.id))
    let draggedTodos := draggedTodoIds.filterMap
      (fun id => currentListTodos.find? (fun todo => todo.id == id))
    match targetTodoId with
    | none =>
      some (remainingTodos.map Todo.id ++ draggedTodos.map Todo.id)
    | some tid =>
      if (currentListTodos.find? (fun todo => todo.id == tid)).isNone then none
      else
        let draggedIndex := jsFindIdx currentListTodos (fun todo => todo.id == draggedTodoIds.headD "")
        let targetIndex := jsFindIdx currentListTodos (fun todo => todo.id == tid)
        let isMovingForward := draggedIndex < targetIndex
        match remainingTodos.findIdx? (fun todo => todo.id == tid) with
        | none => some (draggedTodos.map Todo.id ++ remainingTodos.map Todo.id)
        | some adjustedTargetIndex =>
          if isMovingForward then
            some ((remainingTodos.take (adjustedTargetIndex + 1)).map Todo.id ++
              draggedTodos.map Todo.id ++ (remainingTodos.drop (adjustedTargetIndex + 1)).map Todo.id)
          else
            some ((remainingTodos.take adjustedTargetIndex).map Todo.id ++
              draggedTodos.map Todo.id ++ (remainingTodos.drop adjustedTargetIndex).map Todo.id)

/-- Embeds `TodoApp.reorderTodosInList` end to end (TodoApp.js:1186-1294):
compute the display order of the current list, derive the new ID sequence,
and hand it to `TodoOperations.reorderTodos`. The early returns perform no
mutation, push nothing and never save. -/
def reorderTodosInList (draggedTodoIds : List String) (targetTodoId : Option String)
    (currentListId : String) (todos : List Todo) : OpResult :=
  match reorderNewOrderIds (getFilteredTodos todos currentListId) draggedTodoIds targetTodoId with
  | none => ⟨false, todos, [], false⟩
  | some newOrderTodoIds => reorderTodos newOrderTodoIds (some currentListId) todos

/-- Modelled from the spec: the ReorderPlanner contract of section 4.2, on ID
sequences. `remaining` is the current order minus the dragged items; a null
target appends the dragged items in the order they were listed; otherwise
the dragged block is spliced immediately after the target when the first
dragged item's original index is below the target's, and immediately before
the target otherwise. -/
def planReorderSpec (current : List String) (draggedIds : List String)
    (targetId : Option String) : List String :=
  let remaining := current.filter (fun id => !(draggedIds.contains id))
  match targetId with
  | none => remaining ++ draggedIds
  | some t =>
    let j := remaining.findIdx (fun id => id == t)
    if current.findIdx (fun id => id == draggedIds.headD "") < current.findIdx (fun id => id == t) then
      remaining.take (j + 1) ++ draggedIds ++ remaining.drop (j + 1)
    else
      remaining.take j ++ draggedIds ++ remaining.drop j

/-- Input for the C1 failing scenario: one task in list A. -/
def c1Todo : Todo := ⟨"t1", "x", false, some "A", 0, some 1000⟩

/-- The result of moving the task to list B. -/
def c1Move : OpResult := moveTodosToList ["t1"] (some "B") [c1Todo]

/-- The undo log after the move's action has been recorded. -/
def c1Manager : UndoManager :=
  UndoManager.addAction ⟨[], 50⟩ (c1Move.pushed.headD { type := "" })

/-- The app state after the move. -/
def c1State : AppState := ⟨c1Move.todos, [], "default"⟩

/-- The C10 action: a recognized `editTodo` action whose `previousText` is
the empty string, which is falsy in JS. -/
def c10Action : UndoAction := { type := "editTodo", todoId := some "t1", previousText := some "" }

/-- The C10 app state: the task's current text is `"cur"`. -/
def c10State : AppState := ⟨[⟨"t1", "cur", false, none, 0, some 1000⟩], [], "default"⟩

/-- Witness actions for C4. -/
def c4a1 : UndoAction := { type := "addTodo", todoId := some "x1" }

/-- Second witness action for C4. -/
def c4a2 : UndoAction := { type := "addTodo", todoId := some "x2" }

/-- Third witness action for C4. -/
def c4a3 : UndoAction := { type := "addTodo", todoId := some "x3" }

deriving instance DecidableEq for Except

/-- Witness action for C5: a toggle of task t1. -/
def c5Action : UndoAction := { type := "toggleTodo", todoId := some "t1" }

/-- Witness state for C5: t1 is currently completed. -/
def c5State : AppState := ⟨[⟨"t1", "x", true, none, 0, some 1000⟩], [], "default"⟩

/-- C7 counterexample input: one task with a non-normalized order. -/
def c7Todo : Todo := ⟨"A", "a", false, none, 1, some 500⟩

/-- The partition of the normalized todos collection: what
`normalizeTodoOrders` leaves in the given list. -/
def normalizedPartition (todos : List Todo) (listId : Option String) : List Todo :=
  ((normalizeTodoOrders todos listId).2).filter (fun t => t.listId == normalizeListId listId)

/-- Helper: `getNextOrderValue` expressed through the maximum of the
partition's effective order values. -/
theorem getNextOrderValue_eq_max (todos : List Todo) (listId : Option String) :
    getNextOrderValue todos listId =
      match ((todos.filter (fun t => t.listId == normalizeListId listId)).map
        (fun t => t.order.getD 0)).max? with
      | some m => m + 1000
      | none => 1000 := by
  simp only [getNextOrderValue]
  cases hP : todos.filter (fun todo => todo.listId == normalizeListId listId) with
  | nil => rfl
  | cons x xs =>
    have hsome : (((x :: xs).map (fun t => t.order.getD 0)).max?).isSome := by
      exact List.isSome_max?_of_mem (List.mem_map_of_mem _ (List.mem_cons_self x xs))
    obtain ⟨m, hm⟩ := Option.isSome_iff_exists.1 hsome
    rw [hm]
    rfl

/-- C8: `getNextOrderValue` returns 1000 on an empty partition and otherwise
the maximum existing order (missing treated as 0) plus 1000; in particular a
single task of order 1000 yields 2000. -/
theorem getNextOrderValue_spec (todos : List Todo) (listId : Option String) :
    (todos.filter (fun t => t.listId == normalizeListId listId) = [] →
      getNextOrderValue todos listId = 1000) ∧
    (∀ t ∈ todos.filter (fun t => t.listId == normalizeListId listId),
      t.order.getD 0 + 1000 ≤ getNextOrderValue todos listId) ∧
    (todos.filter (fun t => t.listId == normalizeListId listId) ≠ [] →
      ∃ t ∈ todos.filter (fun t => t.listId == normalizeListId listId),
        getNextOrderValue todos listId = t.order.getD 0 + 1000) ∧
    getNextOrderValue [] none = 1000 ∧
    getNextOrderValue [⟨"a", "x", false, none, 0, some 1000⟩] none = 2000 := by
  refine ⟨?_, ?_, ?_, by decide, by decide⟩
  · intro h
    rw [getNextOrderValue_eq_max, h]
    rfl
  · intro t ht
    rw [getNextOrderValue_eq_max]
    have hsome : (((todos.filter (fun t => t.listId == normalizeListId listId)).map
        (fun t => t.order.getD 0)).max?).isSome := by
      exact List.isSome_max?_of_mem (List.mem_map_of_mem _ ht)
    obtain ⟨m, hm⟩ := Option.isSome_iff_exists.1 hsome
    have hle := (List.max?_le_iff (fun a b c => max_le_iff) hm).1 le_rfl
    have hmt := hle _ (List.mem_map_of_mem (fun t => t.order.getD 0) ht)
    rw [hm]
    show t.order.getD 0 + 1000 ≤ m + 1000
    omega
  · intro hne
    rw [getNextOrderValue_eq_max]
    obtain ⟨t, ht⟩ := List.exists_mem_of_ne_nil _ hne
    have hsome : (((todos.filter (fun t => t.listId == normalizeListId listId)).map
        (fun t => t.order.getD 0)).max?).isSome := by
      exact List.isSome_max?_of_mem (List.mem_map_of_mem _ ht)
    obtain ⟨m, hm⟩ := Option.isSome_iff_exists.1 hsome
    have hmem := List.max?_mem (fun a b => max_choice a b) hm
    obtain ⟨u, hu, hum⟩ := List.mem_map.1 hmem
    refine ⟨u, hu, ?_⟩
    rw [hm]
    show m + 1000 = u.order.getD 0 + 1000
    rw [hum]

/-- C9 counterexample: `getTodosForList` with the sentinel `'default'`
returns every task, including one that belongs to list `L`, so the
`'default'` partition retrieval is not the `listId == null` partition. -/
theorem getTodosForList_default_counterexample :
    getTodosForList
        [⟨"t1", "x", false, none, 0, some 1000⟩, ⟨"t2", "y", false, some "L", 0, some 1000⟩]
        "default" ≠
      ([⟨"t1", "x", false, none, 0, some 1000⟩, ⟨"t2", "y", false, some "L", 0, some 1000⟩] :
        List Todo).filter (fun t => t.listId == none) := by
  decide

/-- C9 (amended): the `TodoOperations` partition functions normalize the
sentinel `'default'` to `null` and treat the two identically, but
`TodoApp.getTodosForList` returns the entire todos collection for
`'default'` instead of the `listId == null` partition. -/
theorem default_sentinel_normalization (todos : List Todo) (todoIds : List String) :
    normalizeListId (some "default") = none ∧
    getNextOrderValue todos (some "default") = getNextOrderValue todos none ∧
    normalizeTodoOrders todos (some "default") = normalizeTodoOrders todos none ∧
    reorderTodos todoIds (some "default") todos = reorderTodos todoIds none todos ∧
    moveTodosToList todoIds (some "default") todos = moveTodosToList todoIds none todos ∧
    getTodosForList todos "default" = todos := by
  refine ⟨rfl, rfl, rfl, rfl, rfl, rfl⟩

/-- C1: the recorded `moveTodos` action carries the per-task
`originalListIds` map (t1 came from list A) and no singular
`originalListId`; `undo` then reports success while leaving the task in
list B, because `_undoMoveTodos` is guarded on the absent singular field.
The per-task restoration the claim describes never happens. -/
theorem undoMoveTodos_silently_restores_nothing :
    c1Move.ok = true ∧
    c1Move.pushed.map (fun a => (a.type, a.originalListIds, a.originalListId)) =
      [("moveTodos", some [("t1", some "A")], none)] ∧
    (UndoManager.undo c1Manager todoAppOperations c1State).1 = true ∧
    (UndoManager.undo c1Manager todoAppOperations c1State).2.2 = c1State ∧
    c1State.todos.map Todo.listId = [some "B"] := by
  decide

/-- C10: an action with a recognized type (`editTodo`, dispatched, not the
default branch) for which `undo` returns true yet mutates nothing: the
handler's guard on `action.previousText` fails silently, the action is
consumed, and the state is unchanged. -/
theorem undo_true_without_inverse :
    (undoDispatch c10Action todoAppOperations c10State).isSome = true ∧
    (UndoManager.undo ⟨[c10Action], 50⟩ todoAppOperations c10State).1 = true ∧
    (UndoManager.undo ⟨[c10Action], 50⟩ todoAppOperations c10State).2.2 = c10State ∧
    (UndoManager.undo ⟨[c10Action], 50⟩ todoAppOperations c10State).2.1.undoStack = [] := by
  decide

/-- Witness for C8: concrete non-empty and empty partitions. -/
theorem getNextOrderValue_spec_witness :
    (∃ t ∈ ([⟨"b", "y", false, none, 0, some 500⟩] : List Todo).filter
        (fun t => t.listId == normalizeListId none),
      getNextOrderValue [⟨"b", "y", false, none, 0, some 500⟩] none = t.order.getD 0 + 1000) ∧
    getNextOrderValue [] none = 1000 :=
  ⟨(getNextOrderValue_spec [⟨"b", "y", false, none, 0, some 500⟩] none).2.2.1 (by decide),
   (getNextOrderValue_spec [] none).2.2.2.1⟩

/-- Helper: adding a valid action to an in-capacity stack appends at the new
end and drops the oldest entry exactly when the capacity is exceeded. -/
theorem addAction_valid_eq (s : List UndoAction) (N : Nat) (a : UndoAction)
    (ha : ¬ a.type = "") (hs : s.length ≤ N) :
    UndoManager.addAction ⟨s, N⟩ a = ⟨(s ++ [a]).drop (s.length + 1 - N), N⟩ := by
  simp only [UndoManager.addAction, if_neg ha]
  by_cases h : (s ++ [a]).length > N
  · rw [if_pos h]
    rw [List.length_append] at h
    have h1 : s.length + 1 - N = 1 := by simp at h; omega
    rw [h1, List.drop_one]
  · rw [if_neg h]
    rw [List.length_append] at h
    have h1 : s.length + 1 - N = 0 := by simp at h; omega
    rw [h1, List.drop_zero]

/-- Helper: the stack after folding `addAction` over a batch of valid
actions keeps exactly the newest `maxSize` entries. -/
theorem addAction_foldl_eq (N : Nat) :
    ∀ (l : List UndoAction) (s : List UndoAction), (∀ a ∈ l, ¬ a.type = "") → s.length ≤ N →
    l.foldl UndoManager.addAction ⟨s, N⟩ = ⟨(s ++ l).drop (s.length + l.length - N), N⟩ := by
  intro l
  induction l with
  | nil =>
    intro s _ hs
    simp [Nat.sub_eq_zero_of_le hs]
  | cons a l ih =>
    intro s hval hs
    rw [List.foldl_cons, addAction_valid_eq s N a (hval a (List.mem_cons_self a l)) hs]
    have hd1le : s.length + 1 - N ≤ (s ++ [a]).length := by
      rw [List.length_append, List.length_singleton]
      omega
    have hlen2 : ((s ++ [a]).drop (s.length + 1 - N)).length ≤ N := by
      rw [List.length_drop, List.length_append, List.length_singleton]
      omega
    rw [ih ((s ++ [a]).drop (s.length + 1 - N)) (fun b hb => hval b (List.mem_cons_of_mem a hb)) hlen2]
    have hstack : ((s ++ [a]).drop (s.length + 1 - N) ++ l).drop
        (((s ++ [a]).drop (s.length + 1 - N)).length + l.length - N) =
        (s ++ a :: l).drop (s.length + (a :: l).length - N) := by
      rw [← List.drop_append_of_le_length hd1le, List.drop_drop]
      have hX : (s ++ [a]) ++ l = s ++ a :: l := by
        rw [List.append_assoc]
        rfl
      rw [hX]
      congr 1
      rw [List.length_drop, List.length_append, List.length_singleton]
      simp only [List.length_cons]
      omega
    rw [hstack]

/-- C4: pushing `N + k` valid actions (k at least 1) onto an empty log of
capacity N at least 1 leaves exactly the newest N actions (the first k are
evicted from the oldest end, so `undo`, which only pops this stack, can
never reach them), the final size is exactly N, and after every prefix of
the pushes the size is at most N. -/
theorem undoManager_bounded_log (N k : Nat) (acts : List UndoAction)
    (hN : 1 ≤ N) (hk : 1 ≤ k)
    (hval : ∀ a ∈ acts, ¬ a.type = "") (hlen : acts.length = N + k) :
    (acts.foldl UndoManager.addAction ⟨[], N⟩).undoStack = acts.drop k ∧
    (acts.foldl UndoManager.addAction ⟨[], N⟩).undoStack.length = N ∧
    ∀ i, ((acts.take i).foldl UndoManager.addAction ⟨[], N⟩).undoStack.length ≤ N := by
  have h1 := addAction_foldl_eq N acts [] hval (by simp)
  refine ⟨?_, ?_, ?_⟩
  · rw [h1]
    simp only [List.nil_append, List.length_nil, Nat.zero_add]
    congr 1
    omega
  · rw [h1]
    simp only [List.nil_append, List.length_nil, Nat.zero_add, List.length_drop]
    omega
  · intro i
    have h2 := addAction_foldl_eq N (acts.take i) []
      (fun a ha => hval a (List.mem_of_mem_take ha)) (by simp)
    rw [h2]
    simp only [List.nil_append, List.length_nil, Nat.zero_add, List.length_drop]
    omega

/-- Witness for C4: three pushes on a capacity-2 log evict exactly the
oldest action. -/
theorem undoManager_bounded_log_witness :
    ([c4a1, c4a2, c4a3].foldl UndoManager.addAction ⟨[], 2⟩).undoStack = [c4a2, c4a3] ∧
    ([c4a1, c4a2, c4a3].foldl UndoManager.addAction ⟨[], 2⟩).undoStack.length = 2 := by
  have h := undoManager_bounded_log 2 1 [c4a1, c4a2, c4a3] (by decide) (by decide)
    (by decide) (by decide)
  exact ⟨by rw [h.1]; rfl, h.2.1⟩

/-- C5: the log-level undo contract. An empty log returns false without
popping. Otherwise the most recent action is popped and dispatched: an
unrecognized type pushes the action back (log identical to before the call)
and returns false; a handler that completes returns true with the action
consumed and the callback's state; a handler that throws pushes the action
back (log identical) and returns false. -/
theorem undo_log_contract (operations : Operations) (m : UndoManager) (st : AppState) :
    (m.undoStack = [] → m.undo operations st = (false, m, st)) ∧
    (∀ rest a, m.undoStack = rest ++ [a] →
      (undoDispatch a operations st = none → m.undo operations st = (false, m, st)) ∧
      (∀ st2, undoDispatch a operations st = some (Except.ok st2) →
        m.undo operations st = (true, ⟨rest, m.maxSize⟩, st2)) ∧
      (∀ e, undoDispatch a operations st = some (Except.error e) →
        (m.undo operations st).1 = false ∧ (m.undo operations st).2.1 = m)) := by
  obtain ⟨stack, maxSize⟩ := m
  constructor
  · intro h
    subst h
    rfl
  · intro rest a hsplit
    simp only at hsplit
    subst hsplit
    have hlast : (rest ++ [a]).getLast? = some a := List.getLast?_concat rest
    have hdrop : (rest ++ [a]).dropLast = rest := List.dropLast_concat
    refine ⟨?_, ?_, ?_⟩
    · intro hnone
      simp only [UndoManager.undo, hlast, hnone, hdrop]
    · intro st2 hok
      simp only [UndoManager.undo, hlast, hok, hdrop]
    · intro e herr
      simp only [UndoManager.undo, hlast, herr, hdrop]
      constructor <;> trivial

/-- Witness for C5: undoing the toggle pops the action, flips the task back
and reports success. -/
theorem undo_log_contract_witness :
    UndoManager.undo ⟨[c5Action], 7⟩ todoAppOperations c5State =
      (true, ⟨[], 7⟩, ⟨[⟨"t1", "x", false, none, 0, some 1000⟩], [], "default"⟩) :=
  ((undo_log_contract todoAppOperations ⟨[c5Action], 7⟩ c5State).2 [] c5Action rfl).2.1
    ⟨[⟨"t1", "x", false, none, 0, some 1000⟩], [], "default"⟩ (by decide)

/-- Helper for C6: when every todo reachable under an id already carries the
order value that would be written, the write loop iteration leaves the
collection untouched and reports no change. -/
theorem applyNewOrder_noop (nlid : Option String) (todoId : String) (v : Int) :
    ∀ (todos : List Todo),
    (∀ t ∈ todos, t.id = todoId → isMatchingList t.listId nlid = true → t.order = some v) →
    applyNewOrder nlid todoId v todos = (todos, false) := by
  intro todos
  induction todos with
  | nil => intro _; rfl
  | cons t rest ih =>
    intro h
    simp only [applyNewOrder]
    by_cases hid : (t.id == todoId) = true
    · rw [if_pos hid]
      by_cases hm : isMatchingList t.listId nlid = true
      · rw [if_pos hm]
        have hord : t.order = some v :=
          h t (List.mem_cons_self t rest) (by simpa using hid) hm
        have : (t.order != some v) = false := by
          rw [hord]
          simp
        rw [this]
        simp
      · rw [if_neg hm]
    · rw [if_neg hid]
      rw [ih (fun u hu => h u (List.mem_cons_of_mem t hu))]

/-- Helper for C6: the full write loop of `reorderTodos` is the identity and
reports no change when every computed order equals the stored one. -/
theorem reorderTodos_foldl_noop (nlid : Option String) :
    ∀ (l : List (Nat × String)) (todos : List Todo),
    (∀ p ∈ l, ∀ t ∈ todos, t.id = p.2 → isMatchingList t.listId nlid = true →
      t.order = some (((p.1 : Int) + 1) * 1000)) →
    l.foldl (fun acc p =>
      let r := applyNewOrder nlid p.2 (((p.1 : Int) + 1) * 1000) acc.1
      (r.1, acc.2 || r.2)) (todos, false) = (todos, false) := by
  intro l
  induction l with
  | nil => intro todos _; rfl
  | cons p l ih =>
    intro todos h
    rw [List.foldl_cons]
    have h1 := applyNewOrder_noop nlid p.2 (((p.1 : Int) + 1) * 1000) todos
      (fun t ht => h p (List.mem_cons_self p l) t ht)
    simp only [h1]
    exact ih todos (fun q hq t ht => h q (List.mem_cons_of_mem p hq) t ht)

/-- C6: a reorder whose computed `(index+1)*1000` keys all equal the stored
order values mutates nothing, pushes no undo action, does not save, and
returns false (distinguishable from success). -/
theorem reorderTodos_noop_when_unchanged (todoIds : List String) (listId : Option String)
    (todos : List Todo)
    (h : ∀ p ∈ todoIds.enum, ∀ t ∈ todos, t.id = p.2 →
      isMatchingList t.listId (normalizeListId listId) = true →
      t.order = some (((p.1 : Int) + 1) * 1000)) :
    reorderTodos todoIds listId todos = ⟨false, todos, [], false⟩ := by
  by_cases hempty : todoIds.isEmpty = true
  · simp only [reorderTodos, hempty]
    rfl
  · simp only [reorderTodos, hempty]
    rw [reorderTodos_foldl_noop (normalizeListId listId) todoIds.enum todos h]
    simp

/-- Witness for C6: reordering a single task to the order it already has
does nothing and returns false. -/
theorem reorderTodos_noop_when_unchanged_witness :
    reorderTodos ["t1"] none [⟨"t1", "x", false, none, 0, some 1000⟩] =
      ⟨false, [⟨"t1", "x", false, none, 0, some 1000⟩], [], false⟩ :=
  reorderTodos_noop_when_unchanged ["t1"] none [⟨"t1", "x", false, none, 0, some 1000⟩] (by decide)

/-- C7 counterexample: a drag whose only dragged ID `X` does not belong to
the partition is not a no-op: the unknown ID is silently dropped, the
reorder proceeds, task A's order changes from 500 to 1000, and an undo
action is pushed. -/
theorem reorderTodosInList_unknown_dragged_counterexample :
    "X" ∉ ([c7Todo].map Todo.id) ∧
    (reorderTodosInList ["X"] none "default" [c7Todo]).todos ≠ [c7Todo] ∧
    (reorderTodosInList ["X"] none "default" [c7Todo]).pushed ≠ [] ∧
    (reorderTodosInList ["X"] none "default" [c7Todo]).saved = true := by
  decide

/-- C7 (amended): an empty `draggedIds` or a non-null target that is not in
the current display list makes `reorderTodosInList` a complete no-op (no
mutation, nothing pushed, no save, false); a dragged ID that does not belong
is instead silently ignored and the reorder proceeds with the rest. -/
theorem reorderTodosInList_guard_noops (draggedTodoIds : List String)
    (targetTodoId : Option String) (currentListId : String) (todos : List Todo) :
    (draggedTodoIds = [] →
      reorderTodosInList draggedTodoIds targetTodoId currentListId todos =
        ⟨false, todos, [], false⟩) ∧
    (∀ tid, targetTodoId = some tid →
      (∀ t ∈ getFilteredTodos todos currentListId, ¬ t.id = tid) →
      reorderTodosInList draggedTodoIds targetTodoId currentListId todos =
        ⟨false, todos, [], false⟩) := by
  constructor
  · intro h
    subst h
    rfl
  · intro tid htid hmem
    subst htid
    have hfind : (getFilteredTodos todos currentListId).find?
        (fun todo => todo.id == tid) = none := by
      rw [List.find?_eq_none]
      intro t ht
      simpa using hmem t ht
    simp only [reorderTodosInList, reorderNewOrderIds, hfind]
    by_cases h1 : draggedTodoIds.isEmpty = true
    · rw [if_pos h1]
    · rw [if_neg h1]
      by_cases h2 : (draggedTodoIds.length == 1 &&
          (draggedTodoIds.headD "" == tid)) = true
      · rw [if_pos h2]
      · rw [if_neg h2]
        simp

/-- Witness for C7: a drag onto a target id that is not in the current list
is a complete no-op. -/
theorem reorderTodosInList_guard_noops_witness :
    reorderTodosInList ["A"] (some "Z") "default" [c7Todo] = ⟨false, [c7Todo], [], false⟩ :=
  (reorderTodosInList_guard_noops ["A"] (some "Z") "default" [c7Todo]).2 "Z" rfl (by decide)

/-- Helper for C2: removing the dragged todos and projecting to IDs equals
projecting to IDs and then removing the dragged IDs. -/
theorem filter_not_contains_map_id (current : List Todo) (draggedIds : List String) :
    (current.filter (fun todo => !(draggedIds.contains todo.id))).map Todo.id =
      (current.map Todo.id).filter (fun id => !(draggedIds.contains id)) := by
  rw [List.filter_map]
  rfl

/-- Helper for C2: looking up each dragged ID in the current list and
projecting back to IDs returns the dragged IDs unchanged, provided each
belongs to the list. -/
theorem filterMap_find_map_id (current : List Todo) :
    ∀ (ids : List String), (∀ id ∈ ids, id ∈ current.map Todo.id) →
    (ids.filterMap (fun id => current.find? (fun todo => todo.id == id))).map Todo.id = ids := by
  intro ids
  induction ids with
  | nil => intro _; rfl
  | cons i rest ih =>
    intro h
    have hmem : i ∈ current.map Todo.id := h i (List.mem_cons_self i rest)
    obtain ⟨t, ht, hid⟩ := List.mem_map.1 hmem
    have hfind : (current.find? (fun todo => todo.id == i)).isSome := by
      rw [List.find?_isSome]
      exact ⟨t, ht, by simp [hid]⟩
    obtain ⟨u, hu⟩ := Option.isSome_iff_exists.1 hfind
    have huid : u.id = i := by simpa using List.find?_some hu
    simp only [List.filterMap_cons, hu, List.map_cons]
    rw [huid, ih (fun j hj => h j (List.mem_cons_of_mem i hj))]

/-- Helper for C2: `findIdx` over the ID projection agrees with `findIdx`
over the todos when a match exists. -/
theorem findIdx_map_id_eq (l : List Todo) (s : String)
    (hex : ∃ x, x ∈ l ∧ (x.id == s) = true) :
    (l.map Todo.id).findIdx (fun id => id == s) = l.findIdx (fun todo => todo.id == s) := by
  have h1 := List.findIdx?_eq_some_of_exists hex
  have hex2 : ∃ y, y ∈ l.map Todo.id ∧ (y == s) = true := by
    obtain ⟨x, hx, hxs⟩ := hex
    exact ⟨x.id, List.mem_map_of_mem _ hx, hxs⟩
  have h2 := List.findIdx?_eq_some_of_exists hex2
  rw [List.findIdx?_map] at h2
  simp only [Function.comp_def] at h2
  rw [h1] at h2
  exact (Option.some_inj.1 h2).symm

/-- C2: for a valid drag gesture (non-empty dragged IDs that all belong to
the current display order, and a target that belongs and was not dragged),
the ID sequence computed by `reorderTodosInList` is exactly the spec's
ReorderPlanner contract: append at the end for a null target, splice
immediately after the target on a forward move (first dragged item's
original index below the target's), immediately before it on a backward
move; and concretely dragging C onto A in [A,B,C,D] yields [C,A,B,D]. -/
theorem reorderNewOrderIds_matches_spec (current : List Todo) (draggedIds : List String)
    (targetId : Option String)
    (hne : draggedIds ≠ [])
    (hin : ∀ id ∈ draggedIds, id ∈ current.map Todo.id)
    (htgt : ∀ tid, targetId = some tid → tid ∈ current.map Todo.id ∧ tid ∉ draggedIds) :
    reorderNewOrderIds current draggedIds targetId =
      some (planReorderSpec (current.map Todo.id) draggedIds targetId) ∧
    reorderNewOrderIds
      [⟨"A", "a", false, none, 1, some 1000⟩, ⟨"B", "b", false, none, 2, some 2000⟩,
       ⟨"C", "c", false, none, 3, some 3000⟩, ⟨"D", "d", false, none, 4, some 4000⟩]
      ["C"] (some "A") = some ["C", "A", "B", "D"] := by
  refine ⟨?_, by decide⟩
  have hempty : draggedIds.isEmpty = false := by
    cases draggedIds with
    | nil => exact absurd rfl hne
    | cons a l => rfl
  have hhead : draggedIds.headD "" ∈ draggedIds := by
    cases draggedIds with
    | nil => exact absurd rfl hne
    | cons a l => exact List.mem_cons_self a l
  have hc1 : ¬ (draggedIds.isEmpty = true) := by simp [hempty]
  cases targetId with
  | none =>
    have hc2 : ¬ ((draggedIds.length == 1 && false) = true) := by simp
    simp only [reorderNewOrderIds, planReorderSpec]
    rw [if_neg hc1, if_neg hc2]
    rw [← filter_not_contains_map_id, filterMap_find_map_id current draggedIds hin]
  | some tid =>
    obtain ⟨htmem, htnin⟩ := htgt tid rfl
    obtain ⟨u, hu, huid⟩ := List.mem_map.1 htmem
    have hne2 : (draggedIds.headD "" == tid) = false := by
      rw [beq_eq_false_iff_ne]
      intro heq
      exact htnin (heq ▸ hhead)
    have hc2 : ¬ ((draggedIds.length == 1 && (draggedIds.headD "" == tid)) = true) := by
      rw [hne2, Bool.and_false]
      exact Bool.false_ne_true
    have hfind : (current.find? (fun todo => todo.id == tid)).isSome = true := by
      rw [List.find?_isSome]
      exact ⟨u, hu, by simp [huid]⟩
    have hc3 : ¬ ((current.find? (fun todo => todo.id == tid)).isNone = true) := by
      intro hnone
      rw [Option.isNone_iff_eq_none] at hnone
      rw [hnone] at hfind
      simp at hfind
    have hcont : draggedIds.contains tid = false := by
      by_contra hcf
      have : draggedIds.contains tid = true := by
        cases hcc : draggedIds.contains tid with
        | true => rfl
        | false => exact absurd hcc hcf
      exact htnin (by simpa using this)
    have humem : u ∈ current.filter (fun todo => !(draggedIds.contains todo.id)) := by
      rw [List.mem_filter]
      refine ⟨hu, ?_⟩
      rw [huid, hcont]
      rfl
    have hexr : ∃ x, x ∈ current.filter (fun todo => !(draggedIds.contains todo.id)) ∧
        (x.id == tid) = true := ⟨u, humem, by simp [huid]⟩
    have hj := List.findIdx?_eq_some_of_exists hexr
    have hexc : ∃ x, x ∈ current ∧ (x.id == tid) = true := ⟨u, hu, by simp [huid]⟩
    have hd0 : draggedIds.headD "" ∈ current.map Todo.id := hin _ hhead
    obtain ⟨w, hw, hwid⟩ := List.mem_map.1 hd0
    have hexd : ∃ x, x ∈ current ∧ (x.id == draggedIds.headD "") = true :=
      ⟨w, hw, by simp [hwid]⟩
    have hjsd : jsFindIdx current (fun todo => todo.id == draggedIds.headD "") =
        ((current.findIdx (fun todo => todo.id == draggedIds.headD "")) : Int) := by
      unfold jsFindIdx
      rw [List.findIdx?_eq_some_of_exists hexd]
    have hjst : jsFindIdx current (fun todo => todo.id == tid) =
        ((current.findIdx (fun todo => todo.id == tid)) : Int) := by
      unfold jsFindIdx
      rw [List.findIdx?_eq_some_of_exists hexc]
    simp only [reorderNewOrderIds, planReorderSpec]
    rw [if_neg hc1, if_neg hc2, if_neg hc3, hj]
    simp only [hjsd, hjst, Int.ofNat_lt]
    rw [← findIdx_map_id_eq current _ hexd, ← findIdx_map_id_eq current tid hexc]
    by_cases hfwd : ((current.map Todo.id).findIdx (fun id => id == draggedIds.headD "") <
        (current.map Todo.id).findIdx (fun id => id == tid))
    · rw [if_pos hfwd, if_pos hfwd]
      rw [← filter_not_contains_map_id, findIdx_map_id_eq _ tid hexr]
      rw [List.map_take, List.map_drop, filterMap_find_map_id current draggedIds hin]
    · rw [if_neg hfwd, if_neg hfwd]
      rw [← filter_not_contains_map_id, findIdx_map_id_eq _ tid hexr]
      rw [List.map_take, List.map_drop, filterMap_find_map_id current draggedIds hin]

/-- Witness for C2: Scenario C obtained through the general theorem. -/
theorem reorderNewOrderIds_matches_spec_witness :
    reorderNewOrderIds
      [⟨"A", "a", false, none, 1, some 1000⟩, ⟨"B", "b", false, none, 2, some 2000⟩,
       ⟨"C", "c", false, none, 3, some 3000⟩, ⟨"D", "d", false, none, 4, some 4000⟩]
      ["C"] (some "A") =
      some (planReorderSpec
        (([⟨"A", "a", false, none, 1, some 1000⟩, ⟨"B", "b", false, none, 2, some 2000⟩,
           ⟨"C", "c", false, none, 3, some 3000⟩,
           ⟨"D", "d", false, none, 4, some 4000⟩] : List Todo).map Todo.id)
        ["C"] (some "A")) :=
  (reorderNewOrderIds_matches_spec
    [⟨"A", "a", false, none, 1, some 1000⟩, ⟨"B", "b", false, none, 2, some 2000⟩,
     ⟨"C", "c", false, none, 3, some 3000⟩, ⟨"D", "d", false, none, 4, some 4000⟩]
    ["C"] (some "A") (by decide) (by decide)
    (by
      intro tid h
      obtain rfl : tid = "A" := (Option.some_inj.1 h).symm
      exact ⟨by decide, by decide⟩)).1

/-- Helper: two permuted lists that are both strictly sorted under the same
key are equal. -/
theorem perm_pairwise_lt_eq {α : Type} (key : α → Int) :
    ∀ {l₁ l₂ : List α}, l₁.Perm l₂ →
    l₁.Pairwise (fun a b => key a < key b) →
    l₂.Pairwise (fun a b => key a < key b) → l₁ = l₂ := by
  intro l₁
  induction l₁ with
  | nil =>
    intro l₂ hp _ _
    exact hp.nil_eq
  | cons a t ih =>
    intro l₂ hp h1 h2
    have hmem : a ∈ l₂ := hp.subset (List.mem_cons_self a t)
    obtain ⟨u, v, rfl⟩ := List.append_of_mem hmem
    have hp2 : t.Perm (u ++ v) := (List.perm_cons a).1 (hp.trans List.perm_middle)
    cases u with
    | nil =>
      rw [List.nil_append] at hp2 ⊢
      have h1t := (List.pairwise_cons.1 h1).2
      have h2t := (List.pairwise_cons.1 h2).2
      rw [ih hp2 h1t h2t]
    | cons b u2 =>
      exfalso
      have hbt : b ∈ t := hp2.symm.subset (by simp)
      have hab : key a < key b := (List.pairwise_cons.1 h1).1 b hbt
      have hba : key b < key a :=
        (List.pairwise_append.1 h2).2.2 b (List.mem_cons_self b u2) a
          (List.mem_cons_self a v)
      omega

/-- Helper: the indices of `enumFrom` are strictly increasing. -/
theorem enumFrom_pairwise_fst_lt {α : Type} :
    ∀ (l : List α) (n : Nat), (l.enumFrom n).Pairwise (fun p q => p.1 < q.1) := by
  intro l
  induction l with
  | nil => intro n; exact List.Pairwise.nil
  | cons x xs ih =>
    intro n
    refine List.Pairwise.cons ?_ (ih (n + 1))
    intro q hq
    obtain ⟨i, x⟩ := q
    have := (List.mem_enumFrom hq).1
    omega

/-- Helper: `fillOrder` does not change the id. -/
theorem fillOrder_id (t : Todo) : (fillOrder t).id = t.id := by
  unfold fillOrder
  cases t.order <;> rfl

/-- Helper: `fillOrder` does not change the listId. -/
theorem fillOrder_listId (t : Todo) : (fillOrder t).listId = t.listId := by
  unfold fillOrder
  cases t.order <;> rfl

/-- Helper: the orders written by `assignOrders` are strictly increasing. -/
theorem assignOrders_pairwise_lt (l : List Todo) :
    (assignOrders l).Pairwise (fun a b => a.order.getD 0 < b.order.getD 0) := by
  unfold assignOrders
  rw [List.pairwise_map]
  refine (enumFrom_pairwise_fst_lt l 0).imp ?_
  intro p q h
  simp only [Option.getD_some]
  omega

/-- Helper: every task produced by `assignOrders` has a defined order. -/
theorem assignOrders_isSome {u : Todo} {l : List Todo} (hu : u ∈ assignOrders l) :
    u.order.isSome = true := by
  unfold assignOrders at hu
  obtain ⟨p, _, rfl⟩ := List.mem_map.1 hu
  rfl

/-- Helper: `assignOrders` keeps the id sequence. -/
theorem assignOrders_map_id (l : List Todo) :
    (assignOrders l).map Todo.id = l.map Todo.id := by
  unfold assignOrders
  rw [List.map_map]
  have h : ∀ p ∈ l.enum,
      (Todo.id ∘ fun p : Nat × Todo => { p.2 with order := some (((p.1 : Int) + 1) * 1000) }) p =
      (Todo.id ∘ Prod.snd) p := fun p _ => rfl
  rw [List.map_congr_left h, ← List.map_map, List.enum_map_snd]

/-- Helper: the order sequence written by `assignOrders`. -/
theorem assignOrders_map_order (l : List Todo) :
    (assignOrders l).map (fun t => t.order) =
      (List.range l.length).map (fun i : Nat => some (((i : Int) + 1) * 1000)) := by
  unfold assignOrders
  rw [List.map_map]
  have h : ∀ p ∈ l.enum,
      ((fun t => t.order) ∘ fun p : Nat × Todo => { p.2 with order := some (((p.1 : Int) + 1) * 1000) }) p =
      ((fun i : Nat => some (((i : Int) + 1) * 1000)) ∘ Prod.fst) p := fun p _ => rfl
  rw [List.map_congr_left h, ← List.map_map, List.enum_map_fst]

/-- Helper: membership in `assignOrders` comes from a member of the input
with the same id and listId. -/
theorem assignOrders_mem {u : Todo} {l : List Todo} (hu : u ∈ assignOrders l) :
    ∃ t ∈ l, u.id = t.id ∧ u.listId = t.listId := by
  unfold assignOrders at hu
  obtain ⟨p, hp, rfl⟩ := List.mem_map.1 hu
  refine ⟨p.2, ?_, rfl, rfl⟩
  have := List.mem_map_of_mem Prod.snd hp
  rwa [List.enum_map_snd] at this

/-- Helper: the effective display key of a task with a defined order is that
order. -/
theorem effectiveOrder_eq_getD {t : Todo} (h : t.order.isSome = true) :
    effectiveOrder t = t.order.getD 0 := by
  cases ho : t.order with
  | some v => simp [effectiveOrder, ho]
  | none => rw [ho] at h; simp at h

/-- Helper: on tasks with the same completed flag the display comparator is
the effective-order comparator. -/
theorem displayLe_of_same_completed {a b : Todo} (h : a.completed = b.completed)
    (hle : displayLe a b) : effectiveOrder a ≤ effectiveOrder b := by
  unfold displayLe displayLeB at hle
  rw [if_pos (by simp [h])] at hle
  exact of_decide_eq_true hle

/-- Helper: filtering the rebuilt collection down to the partition equals
looking up each original partition member, provided every looked-up element
stays in the partition and every partition member is found. -/
theorem filter_map_lookup (nlidB : Option String) (A : List Todo)
    (hA : ∀ u ∈ A, u.listId = nlidB) :
    ∀ (todos : List Todo),
    (∀ t ∈ todos, t.listId = nlidB → (A.find? (fun u => u.id == t.id)).isSome = true) →
    (todos.map (fun t => if t.listId == nlidB then (A.find? (fun u => u.id == t.id)).getD t else t)).filter
        (fun t => t.listId == nlidB) =
      (todos.filter (fun t => t.listId == nlidB)).map
        (fun t => (A.find? (fun u => u.id == t.id)).getD t) := by
  intro todos
  induction todos with
  | nil => intro _; rfl
  | cons t rest ih =>
    intro h
    simp only [List.map_cons]
    by_cases ht : (t.listId == nlidB) = true
    · rw [if_pos ht]
      have hsome := h t (List.mem_cons_self t rest) (by simpa using ht)
      obtain ⟨u, hu⟩ := Option.isSome_iff_exists.1 hsome
      have hulist : u.listId = nlidB := hA u (List.mem_of_find?_eq_some hu)
      rw [hu, Option.getD_some]
      rw [@List.filter_cons_of_pos Todo (fun s => s.listId == nlidB) u _ (by simp [hulist])]
      rw [@List.filter_cons_of_pos Todo (fun s => s.listId == nlidB) t _ ht]
      rw [List.map_cons, hu, Option.getD_some]
      rw [ih (fun s hs => h s (List.mem_cons_of_mem t hs))]
    · rw [if_neg ht]
      rw [@List.filter_cons_of_neg Todo (fun s => s.listId == nlidB) t _ ht]
      rw [@List.filter_cons_of_neg Todo (fun s => s.listId == nlidB) t _ ht]
      rw [ih (fun s hs => h s (List.mem_cons_of_mem t hs))]

/-- Helper: looking every member of `l` up in `A` by id permutes `l` onto
`A` whenever `A`'s id multiset is a permutation of `l`'s and the ids are
unique. -/
theorem map_lookup_perm (A l : List Todo)
    (hAids : (A.map Todo.id).Perm (l.map Todo.id))
    (hlnodup : (l.map Todo.id).Nodup) :
    (l.map (fun t => (A.find? (fun u => u.id == t.id)).getD t)).Perm A := by
  have hAids_nodup : (A.map Todo.id).Nodup := hAids.nodup_iff.2 hlnodup
  have hAnodup : A.Nodup := List.Nodup.of_map Todo.id hAids_nodup
  have hfound : ∀ t ∈ l, (A.find? (fun u => u.id == t.id)).isSome = true := by
    intro t ht
    have hmem : t.id ∈ A.map Todo.id := hAids.symm.subset (List.mem_map_of_mem Todo.id ht)
    obtain ⟨u, hu, huid⟩ := List.mem_map.1 hmem
    rw [List.find?_isSome]
    exact ⟨u, hu, by simp [huid]⟩
  have hlook_id : ∀ t : Todo, ((A.find? (fun u => u.id == t.id)).getD t).id = t.id := by
    intro t
    cases hf : A.find? (fun u => u.id == t.id) with
    | none => rfl
    | some u => simpa using List.find?_some hf
  have hmapids : (l.map (fun t => (A.find? (fun u => u.id == t.id)).getD t)).map Todo.id =
      l.map Todo.id := by
    rw [List.map_map]
    exact List.map_congr_left (fun t _ => hlook_id t)
  have hmnodup : (l.map (fun t => (A.find? (fun u => u.id == t.id)).getD t)).Nodup := by
    refine List.Nodup.of_map Todo.id ?_
    rw [hmapids]
    exact hlnodup
  rw [List.perm_ext_iff_of_nodup hmnodup hAnodup]
  intro x
  constructor
  · intro hx
    obtain ⟨t, ht, rfl⟩ := List.mem_map.1 hx
    obtain ⟨u, hu⟩ := Option.isSome_iff_exists.1 (hfound t ht)
    rw [hu, Option.getD_some]
    exact List.mem_of_find?_eq_some hu
  · intro hx
    have hxid : x.id ∈ l.map Todo.id := hAids.subset (List.mem_map_of_mem Todo.id hx)
    obtain ⟨t, ht, htid⟩ := List.mem_map.1 hxid
    refine List.mem_map.2 ⟨t, ht, ?_⟩
    obtain ⟨u, hu⟩ := Option.isSome_iff_exists.1 (hfound t ht)
    have huA : u ∈ A := List.mem_of_find?_eq_some hu
    have huid : u.id = t.id := by simpa using List.find?_some hu
    have hux : u = x := List.inj_on_of_nodup_map hAids_nodup huA hx (by rw [huid, htid])
    rw [hu, Option.getD_some, hux]

/-- Helper: the reassigned sorted copy of a filled partition has the same id
multiset as the partition. -/
theorem assign_sort_fill_map_id (l : List Todo) :
    ((assignOrders (sortByOrder (l.map fillOrder))).map Todo.id).Perm (l.map Todo.id) := by
  unfold sortByOrder
  rw [assignOrders_map_id]
  have h2 := (List.perm_insertionSort ordLe (l.map fillOrder)).map Todo.id
  rw [List.map_map] at h2
  have h3 : l.map (Todo.id ∘ fillOrder) = l.map Todo.id :=
    List.map_congr_left (fun t _ => fillOrder_id t)
  rwa [h3] at h2

/-- Helper: the reassigned sorted copy of a filled partition stays inside
the partition's list. -/
theorem assign_sort_fill_listId (todos : List Todo) (nlid : Option String) :
    ∀ u ∈ assignOrders (sortByOrder ((todos.filter (fun t => t.listId == nlid)).map fillOrder)),
      u.listId = nlid := by
  intro u hu
  obtain ⟨s, hs, _, hsl⟩ := assignOrders_mem hu
  have hs2 : s ∈ (todos.filter (fun t => t.listId == nlid)).map fillOrder := by
    unfold sortByOrder at hs
    exact (List.perm_insertionSort ordLe _).subset hs
  obtain ⟨t, ht, rfl⟩ := List.mem_map.1 hs2
  rw [hsl, fillOrder_listId]
  simpa using (List.mem_filter.1 ht).2

/-- Helper: `assignOrders` preserves length. -/
theorem assignOrders_length (l : List Todo) : (assignOrders l).length = l.length := by
  unfold assignOrders
  rw [List.length_map, List.enum_length]

/-- Helper: in the non-empty case the normalized partition is the id-lookup
image of the original partition. -/
theorem normalizedPartition_eq_lookup (todos : List Todo) (listId : Option String)
    (hne : ¬ (todos.filter (fun t => t.listId == normalizeListId listId)).isEmpty = true) :
    normalizedPartition todos listId =
      (todos.filter (fun t => t.listId == normalizeListId listId)).map
        (fun t => ((assignOrders (sortByOrder
          ((todos.filter (fun s => s.listId == normalizeListId listId)).map fillOrder))).find?
            (fun u => u.id == t.id)).getD t) := by
  have hAlist := assign_sort_fill_listId todos (normalizeListId listId)
  have hAids := assign_sort_fill_map_id (todos.filter (fun t => t.listId == normalizeListId listId))
  have hfound : ∀ t ∈ todos, t.listId = normalizeListId listId →
      ((assignOrders (sortByOrder
        ((todos.filter (fun s => s.listId == normalizeListId listId)).map fillOrder))).find?
          (fun u => u.id == t.id)).isSome = true := by
    intro t ht htl
    have htl2 : t ∈ todos.filter (fun s => s.listId == normalizeListId listId) :=
      List.mem_filter.2 ⟨ht, by simp [htl]⟩
    have hmem := hAids.symm.subset (List.mem_map_of_mem Todo.id htl2)
    obtain ⟨u, hu, huid⟩ := List.mem_map.1 hmem
    rw [List.find?_isSome]
    exact ⟨u, hu, by simp [huid]⟩
  unfold normalizedPartition normalizeTodoOrders
  rw [if_neg hne]
  exact filter_map_lookup _ _ hAlist todos hfound

/-- Helper: the normalized partition is a permutation of the reassigned
sorted filled partition when the ids are unique. -/
theorem normalizedPartition_perm (todos : List Todo) (listId : Option String)
    (hnodup : (todos.map Todo.id).Nodup)
    (hne : ¬ (todos.filter (fun t => t.listId == normalizeListId listId)).isEmpty = true) :
    (normalizedPartition todos listId).Perm
      (assignOrders (sortByOrder
        ((todos.filter (fun t => t.listId == normalizeListId listId)).map fillOrder))) := by
  rw [normalizedPartition_eq_lookup todos listId hne]
  exact map_lookup_perm _ _ (assign_sort_fill_map_id _)
    (List.Nodup.sublist ((List.filter_sublist todos).map Todo.id) hnodup)

/-- C3 (amended): after `normalizeTodoOrders` on a non-empty partition with
unique ids, every task in the partition has a defined order; distinct tasks
have distinct orders; iterating the partition by ascending order yields
exactly the prior-order-sorted sequence (missing orders filled from
`createdAt`) carrying orders `(index+1)*1000`; and that by-order iteration
coincides with the effective display sort whenever all partition tasks share
one completed flag. (Without that proviso the display sort moves completed
tasks behind incomplete ones regardless of order, so the claim's unqualified
equation fails; normalization itself still never reorders the display.) -/
theorem normalizeTodoOrders_invariants (todos : List Todo) (listId : Option String)
    (hnodup : (todos.map Todo.id).Nodup)
    (hne : ¬ (todos.filter (fun t => t.listId == normalizeListId listId)).isEmpty = true) :
    (∀ t ∈ normalizedPartition todos listId, t.order.isSome = true) ∧
    (normalizedPartition todos listId).Pairwise (fun a b => a.order ≠ b.order) ∧
    sortByOrder (normalizedPartition todos listId) =
      assignOrders (sortByOrder
        ((todos.filter (fun t => t.listId == normalizeListId listId)).map fillOrder)) ∧
    (sortByOrder (normalizedPartition todos listId)).map (fun t => t.order) =
      (List.range (normalizedPartition todos listId).length).map
        (fun i : Nat => some (((i : Int) + 1) * 1000)) ∧
    ((∀ a ∈ normalizedPartition todos listId, ∀ b ∈ normalizedPartition todos listId,
        a.completed = b.completed) →
      sortByOrder (normalizedPartition todos listId) =
        (normalizedPartition todos listId).insertionSort displayLe) := by
  have hperm := normalizedPartition_perm todos listId hnodup hne
  set A := assignOrders (sortByOrder
    ((todos.filter (fun t => t.listId == normalizeListId listId)).map fillOrder)) with hA
  set P := normalizedPartition todos listId with hP
  have hAlt : A.Pairwise (fun a b => a.order.getD 0 < b.order.getD 0) := by
    rw [hA]
    exact assignOrders_pairwise_lt _
  have hsome : ∀ t ∈ P, t.order.isSome = true := by
    intro t ht
    exact assignOrders_isSome (hA ▸ hperm.subset ht)
  have hne_pair : P.Pairwise (fun a b => a.order ≠ b.order) := by
    have hAne : A.Pairwise (fun a b => a.order ≠ b.order) :=
      hAlt.imp (fun hlt heq => by rw [heq] at hlt; exact lt_irrefl _ hlt)
    exact (List.Perm.pairwise_iff (fun h => Ne.symm h) hperm).2 hAne
  have hPgetDne : P.Pairwise (fun a b => a.order.getD 0 ≠ b.order.getD 0) := by
    have hAne2 : A.Pairwise (fun a b => a.order.getD 0 ≠ b.order.getD 0) :=
      hAlt.imp (fun hlt => ne_of_lt hlt)
    exact (List.Perm.pairwise_iff (fun h => Ne.symm h) hperm).2 hAne2
  have hsorted : (sortByOrder P).Pairwise ordLe := by
    unfold sortByOrder
    exact List.sorted_insertionSort ordLe P
  have hsortPerm : (sortByOrder P).Perm P := by
    unfold sortByOrder
    exact List.perm_insertionSort ordLe P
  have hsort_ne : (sortByOrder P).Pairwise (fun a b => a.order.getD 0 ≠ b.order.getD 0) :=
    (List.Perm.pairwise_iff (fun h => Ne.symm h) hsortPerm).2 hPgetDne
  have hsort_lt : (sortByOrder P).Pairwise (fun a b => a.order.getD 0 < b.order.getD 0) := by
    refine (hsorted.and hsort_ne).imp ?_
    intro a b hab
    have h1 : a.order.getD 0 ≤ b.order.getD 0 := of_decide_eq_true hab.1
    exact lt_of_le_of_ne h1 hab.2
  have hconj3 : sortByOrder P = A :=
    perm_pairwise_lt_eq (fun t => t.order.getD 0) (hsortPerm.trans hperm) hsort_lt hAlt
  refine ⟨hsome, hne_pair, hconj3, ?_, ?_⟩
  · rw [hconj3, hA, assignOrders_map_order]
    have hlen : (sortByOrder
        ((todos.filter (fun t => t.listId == normalizeListId listId)).map fillOrder)).length =
        P.length := by
      rw [hperm.length_eq, hA, assignOrders_length]
    rw [hlen]
  · intro huni
    have hD : (P.insertionSort displayLe).Pairwise displayLe :=
      List.sorted_insertionSort displayLe P
    have hDperm : (P.insertionSort displayLe).Perm P := List.perm_insertionSort displayLe P
    have hDne := (List.Perm.pairwise_iff (fun h => Ne.symm h) hDperm).2 hPgetDne
    have hDle : (P.insertionSort displayLe).Pairwise
        (fun a b => a.order.getD 0 ≤ b.order.getD 0) := by
      refine List.Pairwise.imp_of_mem ?_ hD
      intro a b ha hb hle
      have haP : a ∈ P := hDperm.subset ha
      have hbP : b ∈ P := hDperm.subset hb
      have heff := displayLe_of_same_completed (huni a haP b hbP) hle
      rw [effectiveOrder_eq_getD (hsome a haP), effectiveOrder_eq_getD (hsome b hbP)] at heff
      exact heff
    have hDlt : (P.insertionSort displayLe).Pairwise
        (fun a b => a.order.getD 0 < b.order.getD 0) :=
      (hDle.and hDne).imp (fun hab => lt_of_le_of_ne hab.1 hab.2)
    exact perm_pairwise_lt_eq (fun t => t.order.getD 0)
      (hsortPerm.trans hDperm.symm) hsort_lt hDlt

/-- C3 counterexample: after normalization of a partition holding a
completed task with order 1000 and an incomplete task with order 2000,
iterating by ascending order gives [X, Y] but the effective display sort
gives [Y, X] (incomplete first), so the claim's equation between the two is
false. -/
theorem normalize_ascending_ne_display :
    sortByOrder (normalizedPartition
      [⟨"X", "x", true, none, 1, some 1000⟩, ⟨"Y", "y", false, none, 2, some 2000⟩] none) ≠
      (normalizedPartition
        [⟨"X", "x", true, none, 1, some 1000⟩,
         ⟨"Y", "y", false, none, 2, some 2000⟩] none).insertionSort displayLe := by
  decide

/-- Witness for C3: a two-task incomplete partition, one task missing its
order. -/
theorem normalizeTodoOrders_invariants_witness :
    (∀ t ∈ normalizedPartition
        [⟨"a", "1", false, none, 5, none⟩, ⟨"b", "2", false, none, 3, some 500⟩] none,
      t.order.isSome = true) ∧
    (normalizedPartition
        [⟨"a", "1", false, none, 5, none⟩, ⟨"b", "2", false, none, 3, some 500⟩] none).Pairwise
      (fun a b => a.order ≠ b.order) ∧
    sortByOrder (normalizedPartition
        [⟨"a", "1", false, none, 5, none⟩, ⟨"b", "2", false, none, 3, some 500⟩] none) =
      assignOrders (sortByOrder
        ((([⟨"a", "1", false, none, 5, none⟩, ⟨"b", "2", false, none, 3, some 500⟩] :
          List Todo).filter (fun t => t.listId == normalizeListId none)).map fillOrder)) ∧
    (sortByOrder (normalizedPartition
        [⟨"a", "1", false, none, 5, none⟩, ⟨"b", "2", false, none, 3, some 500⟩] none)).map
      (fun t => t.order) =
      (List.range (normalizedPartition
        [⟨"a", "1", false, none, 5, none⟩, ⟨"b", "2", false, none, 3, some 500⟩] none).length).map
        (fun i : Nat => some (((i : Int) + 1) * 1000)) ∧
    ((∀ a ∈ normalizedPartition
        [⟨"a", "1", false, none, 5, none⟩, ⟨"b", "2", false, none, 3, some 500⟩] none,
      ∀ b ∈ normalizedPartition
        [⟨"a", "1", false, none, 5, none⟩, ⟨"b", "2", false, none, 3, some 500⟩] none,
        a.completed = b.completed) →
      sortByOrder (normalizedPartition
        [⟨"a", "1", false, none, 5, none⟩, ⟨"b", "2", false, none, 3, some 500⟩] none) =
        (normalizedPartition
          [⟨"a", "1", false, none, 5, none⟩,
           ⟨"b", "2", false, none, 3, some 500⟩] none).insertionSort displayLe) :=
  normalizeTodoOrders_invariants
    [⟨"a", "1", false, none, 5, none⟩, ⟨"b", "2", false, none, 3, some 500⟩] none
    (by decide) (by decide)
